import Mathlib

/-!
Verification of the `concurrency` repository (files `multiq.rs`, `stackus.rs`)
against its natural-language specification.

The queue (`Multiq`) is embedded as a sequential state machine: each public
operation is modelled as a pure function on the queue state, translated
statement by statement from the Rust source (locks disappear in the
single-thread model; the condition-variable wait of `wait_and_pop` is
modelled as a `none` result meaning "the call would block").

The stack (`Stackus`) is embedded as a sequential machine over an explicit
heap of nodes addressed by natural numbers (`none` plays the role of the
null pointer).  `alloc`/`dealloc` mirror the manual allocation of the
source; `dealloc` removes the node from the heap, so a later read of a
freed address fails, which models a use-after-free.  Loops of the source
are given explicit fuel; a `none` result of a fuel-indexed function means
the loop has not terminated within the given fuel.
-/

namespace Multiq

/-- The Rust type `Data<T>` with `contents : (Option<T>, Option<Box<Data<T>>>)`:
one cell of the queue's singly linked chain. -/
inductive Data (T : Type) where
  | mk : Option T → Option (Data T) → Data T

/-- First component of `contents`. -/
def Data.val {T : Type} : Data T → Option T
  | .mk v _ => v

/-- Second component of `contents`. -/
def Data.nxt {T : Type} : Data T → Option (Data T)
  | .mk _ n => n

/-- The empty cell `(None, None)`. -/
def Data.empty (T : Type) : Data T := .mk none none

/-- The values stored along a chain of cells, front first. -/
def Data.toList {T : Type} : Data T → List T
  | .mk v n =>
    (match v with | none => [] | some x => [x]) ++
    (match n with | none => [] | some d => d.toList)

/-- Every cell of the chain carries a value (`contents.0.is_some()`). -/
def Data.allSome {T : Type} : Data T → Bool
  | .mk v n =>
    v.isSome && (match n with | none => true | some d => d.allSome)

/-- The queue state: the head region and the tail region, each one chain
of cells (the two mutexes and the condvar of `InnerMultiq` have no
sequential content). -/
structure QState (T : Type) where
  head : Data T
  tail : Data T

/-- `Multiq::new(value)`: the head region is the single cell holding the
seed value, the tail region is the empty cell. -/
def newQ {T : Type} (value : T) : QState T :=
  { head := .mk (some value) none, tail := Data.empty T }

/-- `Multiq::pop`, translated clause by clause from the source.  Returns
the popped value (if any) together with the new state. -/
def pop {T : Type} (s : QState T) : Option T × QState T :=
  if (s.head.val).isSome then
    let value := s.head.val
    match s.head.nxt with
    | some d => (value, { s with head := d })
    | none =>
      -- try to add contents to head from tail
      if (s.tail.val).isSome = false then
        (value, { head := Data.empty T, tail := Data.empty T })
      else
        (value, { head := s.tail, tail := Data.empty T })
  else
    -- try to pop from tail
    if (s.tail.val).isSome then
      let value := s.tail.val
      let head1 := match s.tail.nxt with
        | some d => d
        | none => s.head
      (value, { head := head1, tail := Data.empty T })
    else
      (none, s)

/-- `Multiq::wait_and_pop`, sequential model: a `none` result means the
call reached the condition-variable wait (the queue is empty and the call
blocks); otherwise the returned value is the one the source returns. -/
def waitAndPop {T : Type} (s : QState T) : Option T × QState T :=
  if (s.head.val).isSome then
    let value := s.head.val
    match s.head.nxt with
    | some d => (value, { s with head := d })
    | none =>
      if (s.tail.val).isSome = false then
        (value, { head := Data.empty T, tail := Data.empty T })
      else
        (value, { head := s.tail, tail := Data.empty T })
  else
    if (s.tail.val).isSome then
      let value := s.tail.val
      let head1 := match s.tail.nxt with
        | some d => d
        | none => s.head
      -- remove contents of tail
      (value, { head := head1, tail := Data.empty T })
    else
      -- while tail.contents.0.is_none() { wait } : the call blocks
      (none, s)

/-- `Data` chain with `value` appended at the end of the `next` links
(the walk of `push` over `tail.contents.1`). -/
def appendChain {T : Type} (value : T) : Data T → Data T
  | .mk v n =>
    match n with
    | none => .mk v (some (.mk (some value) none))
    | some d => .mk v (some (appendChain value d))

/-- `Multiq::push`: under the tail lock, either install the value as the
sole tail cell (tail empty) or append it at the end of the tail chain. -/
def push {T : Type} (value : T) (s : QState T) : QState T :=
  if (s.tail.val).isSome = false then
    { s with tail := .mk (some value) none }
  else
    { s with tail := appendChain value s.tail }

/-- `Multiq::is_empty`: both regions hold no value and no successor. -/
def isEmptyQ {T : Type} (s : QState T) : Bool :=
  (s.tail.val).isSome = false && (s.tail.nxt).isNone &&
    (s.head.val).isSome = false && (s.head.nxt).isNone

/-- Well-formedness of a region: it is the empty cell, or every cell of
the chain carries a value.  Every state reachable from `newQ` by the
public operations has both regions well-formed. -/
def Data.isEmptyCell {T : Type} : Data T → Bool
  | .mk none none => true
  | _ => false

def wfData {T : Type} (d : Data T) : Bool :=
  d.isEmptyCell || d.allSome

/-- Well-formed queue state. -/
def wfQ {T : Type} (s : QState T) : Bool :=
  wfData s.head && wfData s.tail

/-- The abstract content of the queue: head region then tail region,
oldest first. -/
def qToList {T : Type} (s : QState T) : List T :=
  s.head.toList ++ s.tail.toList

end Multiq

namespace Stackus

/-- The Rust type `Nodus<T>`: one stack node, owning a value and a raw
pointer to the next node (`none` models the null pointer; heap addresses
are natural numbers). -/
structure Node (T : Type) where
  value : T
  next : Option Nat
deriving DecidableEq, Repr

/-- The state of a `Stackus<T>` together with the explicit heap of
allocated nodes and a log of the deallocations performed.  `incCount` and
`decCount` log this machine's `fetch_add`/`fetch_sub` operations on
`threads_in_pop`. -/
structure StackState (T : Type) where
  heap : List (Nat × Node T)
  head : Option Nat
  threadsInPop : Nat
  listToDelete : Option Nat
  nextAlloc : Nat
  freed : List Nat
  incCount : Nat
  decCount : Nat
deriving DecidableEq, Repr

/-- Dereference a node pointer.  A freed (or never-allocated) address
reads back `none`: the model's image of a use-after-free. -/
def readHeap {T : Type} (s : StackState T) (a : Nat) : Option (Node T) :=
  (s.heap.find? (fun p => p.1 == a)).map (fun p => p.2)

/-- `alloc::alloc` + `ptr::write`: place a node at a fresh address. -/
def alloc {T : Type} (s : StackState T) (n : Node T) : Nat × StackState T :=
  (s.nextAlloc,
    { s with heap := (s.nextAlloc, n) :: s.heap, nextAlloc := s.nextAlloc + 1 })

/-- `alloc::dealloc`: remove the node from the heap and log the free. -/
def dealloc {T : Type} (s : StackState T) (a : Nat) : StackState T :=
  { s with heap := s.heap.filter (fun p => p.1 != a), freed := s.freed ++ [a] }

/-- The state holding no allocations at all (scratch origin for `new`). -/
def emptyState (T : Type) : StackState T :=
  { heap := [], head := none, threadsInPop := 0, listToDelete := none,
    nextAlloc := 0, freed := [], incCount := 0, decCount := 0 }

/-- `Stackus::new(value)`: allocate one node holding the seed value with a
null successor; `head` points at it, `threads_in_pop` is 0 and
`list_to_delete` is null. -/
def newStack {T : Type} (value : T) : StackState T :=
  let p := alloc (emptyState T) { value := value, next := none }
  { p.2 with head := some p.1 }

/-- `Stackus::push(value)`: allocate a node whose `next` is the observed
head and install it as the new head.  In the sequential machine nothing
else writes `head` between the load and the compare-and-swap, so the CAS
of the retry loop succeeds on the first iteration. -/
def push {T : Type} (value : T) (s : StackState T) : StackState T :=
  let p := alloc s { value := value, next := s.head }
  { p.2 with head := some p.1 }

/-- `Stackus::chain_pending_nodes(list)`: CAS `list_to_delete` from null
to `list`; on CAS failure the source executes
`self.list_to_delete.load(..).read().next = list`, which assigns the
`next` field of the by-value copy produced by `ptr::read` — the heap node
is never written, so the store is lost and the state is unchanged. -/
def chainPendingNodes {T : Type} (s : StackState T) (list : Option Nat) :
    StackState T :=
  match s.listToDelete with
  | none => { s with listToDelete := list }
  | some _ => s

/-- `Stackus::delete_nodes(list)`: `while !list.is_null()` deallocate
`list` — the loop variable is never advanced to `next` in the source, so
the recursive call keeps the same pointer.  The fuel bounds the number of
loop iterations; a `none` result means the loop has not terminated. -/
def deleteNodes {T : Type} : Nat → Option Nat → StackState T →
    Option (StackState T)
  | _, none, s => some s
  | 0, some _, _ => none
  | fuel + 1, some a, s => deleteNodes fuel (some a) (dealloc s a)

/-- `Stackus::try_reclaim(old_head)`.  `delta` is the number of pop
invocations other threads start between this thread's claim of the
deletion list and its `fetch_sub` — the one interleaving window the
branch structure of the source distinguishes (a sequential run has
`delta = 0`). -/
def tryReclaim {T : Type} (s : StackState T) (oldHead : Nat)
    (delta fuel : Nat) : Option (StackState T) :=
  if s.threadsInPop == 1 then
    -- claim list of nodes to be deleted
    let nodesToDelete := s.listToDelete
    let s1 := { s with listToDelete := none }
    -- delta other pops increment the counter before the fetch_sub
    let s2 := { s1 with threadsInPop := s1.threadsInPop + delta }
    let observed := s2.threadsInPop
    let s3 := { s2 with threadsInPop := s2.threadsInPop - 1,
                        decCount := s2.decCount + 1 }
    if observed == 1 then
      match deleteNodes fuel nodesToDelete s3 with
      | none => none
      | some s4 => some (dealloc s4 oldHead)
    else
      some (dealloc (chainPendingNodes s3 nodesToDelete) oldHead)
  else
    let s1 := chainPendingNodes s (some oldHead)
    some { s1 with threadsInPop := s1.threadsInPop - 1,
                   decCount := s1.decCount + 1 }

/-- Outcome of the retry loop of `Stackus::pop`: the CAS succeeded on the
node at the given address, the head was observed null, or the
dereference of `old_head` hit a freed node. -/
inductive LoopOut (T : Type) where
  | value : Nat → StackState T → LoopOut T
  | empty : StackState T → LoopOut T
  | fault : LoopOut T
deriving DecidableEq

/-- The retry loop of `Stackus::pop`, with `oldHead` the value of
`old_head` read once before the loop.  Each iteration re-reads `head` for
the null test, but on CAS failure the source retries with the SAME
`old_head` — it is never re-read.  `none` means the fuel ran out, i.e.
the loop did not terminate within `fuel` iterations. -/
def popLoop {T : Type} : Nat → StackState T → Option Nat →
    Option (LoopOut T)
  | 0, _, _ => none
  | fuel + 1, s, oldHead =>
    if s.head.isSome then
      -- CAS(head, old_head -> old_head.read().next)
      if s.head = oldHead then
        match oldHead with
        | none => none
        | some a =>
          match readHeap s a with
          | none => some .fault
          | some node => some (.value a { s with head := node.next })
      else
        -- CAS failed: loop again with the stale oldHead
        popLoop fuel s oldHead
    else
      some (.empty { s with threadsInPop := s.threadsInPop - 1,
                            decCount := s.decCount + 1 })

/-- `Stackus::pop`, assembled from the entry increment, the retry loop,
the value extraction and `try_reclaim`.  `none` means the call did not
complete (a loop ran out of fuel, or a freed node was dereferenced). -/
def pop {T : Type} (s : StackState T) (delta fuel : Nat) :
    Option (Option T × StackState T) :=
  let s1 := { s with threadsInPop := s.threadsInPop + 1,
                     incCount := s.incCount + 1 }
  match popLoop fuel s1 s1.head with
  | none => none
  | some .fault => none
  | some (.empty s2) => some (none, s2)
  | some (.value a s2) =>
    match readHeap s2 a with
    | none => none
    | some node =>
      match tryReclaim s2 a delta fuel with
      | none => none
      | some s3 => some (some node.value, s3)

/-- `Stackus::is_empty`: the head pointer is null. -/
def isEmptyS {T : Type} (s : StackState T) : Bool :=
  s.head.isNone

/-- The loop of `impl Drop for Stackus`, with cursor `cur` standing for
`cur_head`.  Each iteration computes
`next_head = self.head.load().read().next` — it dereferences the node at
the stack's `head` field (never updated by the loop), not the cursor —
then deallocates the cursor and moves the cursor to `next_head`.
`some none` signals a dereference of a freed node (or of null);
`none` means the fuel ran out. -/
def dropLoop {T : Type} : Nat → Option Nat → StackState T →
    Option (Option (StackState T))
  | _, none, s => some (some s)
  | 0, some _, _ => none
  | fuel + 1, some a, s =>
    match s.head with
    | none => some none
    | some h =>
      match readHeap s h with
      | none => some none
      | some node => dropLoop fuel node.next (dealloc s a)

/-- `drop` on a `Stackus`: run the teardown loop from the current head. -/
def dropStack {T : Type} (fuel : Nat) (s : StackState T) :
    Option (Option (StackState T)) :=
  dropLoop fuel s.head s

/-- The addresses reachable from a pointer by following `next` links
(fuelled walk; used to talk about reachability from `list_to_delete`). -/
def chainList {T : Type} : Nat → StackState T → Option Nat → List Nat
  | _, _, none => []
  | 0, _, some _ => []
  | fuel + 1, s, some a =>
    a :: (match readHeap s a with
          | none => []
          | some n => chainList fuel s n.next)

end Stackus

namespace Multiq

theorem appendChain_toList {T : Type} (v : T) : (d : Data T) →
    (appendChain v d).toList = d.toList ++ [v]
  | .mk w none => by
    cases w <;> simp [appendChain, Data.toList]
  | .mk w (some d) => by
    have ih := appendChain_toList v d
    cases w <;> simp [appendChain, Data.toList, ih]

theorem appendChain_allSome {T : Type} (v : T) : (d : Data T) →
    d.allSome = true → (appendChain v d).allSome = true
  | .mk w none, h => by
    simp [Data.allSome] at h
    simp [appendChain, Data.allSome, h]
  | .mk w (some d), h => by
    have ih := appendChain_allSome v d
    simp [Data.allSome] at h
    simp [appendChain, Data.allSome, h.1, ih h.2]

theorem wfData_none {T : Type} {n : Option (Data T)}
    (h : wfData (.mk none n) = true) : n = none := by
  cases n with
  | none => rfl
  | some d => simp [wfData, Data.isEmptyCell, Data.allSome] at h

theorem allSome_of_wf_some {T : Type} {x : T} {n : Option (Data T)}
    (h : wfData (.mk (some x) n) = true) :
    (Data.mk (some x) n).allSome = true := by
  simpa [wfData, Data.isEmptyCell] using h

theorem wfData_of_allSome {T : Type} {d : Data T}
    (h : d.allSome = true) : wfData d = true := by
  simp [wfData, h]

theorem wfData_empty {T : Type} : wfData (Data.mk (none : Option T) none) = true := by
  simp [wfData, Data.isEmptyCell]

/-- The master lemma about `pop` on a well-formed state: it returns the
front of the abstract content, the new content is the tail, the result is
well-formed, and on an empty queue the state is returned unchanged. -/
theorem pop_spec {T : Type} (s : QState T) (h : wfQ s = true) :
    (pop s).1 = (qToList s).head? ∧
    qToList (pop s).2 = (qToList s).tail ∧
    wfQ (pop s).2 = true ∧
    (qToList s = [] → pop s = (none, s)) := by
  obtain ⟨⟨hv, hn⟩, ⟨tv, tn⟩⟩ := s
  simp only [wfQ, Bool.and_eq_true] at h
  obtain ⟨hwh, hwt⟩ := h
  cases hv with
  | some x =>
    have hall := allSome_of_wf_some hwh
    cases hn with
    | some d =>
      have hd : wfData d = true := by
        apply wfData_of_allSome
        simp [Data.allSome] at hall; exact hall
      refine ⟨?_, ?_, ?_, ?_⟩ <;>
        simp [pop, qToList, Data.val, Data.nxt, Data.toList, wfQ, hd, hwt]
    | none =>
      cases tv with
      | none =>
        have htn : tn = none := wfData_none hwt
        subst htn
        refine ⟨?_, ?_, ?_, ?_⟩ <;>
          simp [pop, qToList, Data.val, Data.nxt, Data.toList, wfQ,
                Data.empty, wfData_empty]
      | some y =>
        refine ⟨?_, ?_, ?_, ?_⟩ <;>
          simp [pop, qToList, Data.val, Data.nxt, Data.toList, wfQ,
                Data.empty, wfData_empty, hwt]
  | none =>
    have hhn : hn = none := wfData_none hwh
    subst hhn
    cases tv with
    | some y =>
      have htall := allSome_of_wf_some hwt
      cases tn with
      | some d =>
        have hd : wfData d = true := by
          apply wfData_of_allSome
          simp [Data.allSome] at htall; exact htall
        refine ⟨?_, ?_, ?_, ?_⟩ <;>
          simp [pop, qToList, Data.val, Data.nxt, Data.toList, wfQ,
                Data.empty, wfData_empty, hd]
      | none =>
        refine ⟨?_, ?_, ?_, ?_⟩ <;>
          simp [pop, qToList, Data.val, Data.nxt, Data.toList, wfQ,
                Data.empty, wfData_empty]
    | none =>
      have htn : tn = none := wfData_none hwt
      subst htn
      refine ⟨?_, ?_, ?_, ?_⟩ <;>
        simp [pop, qToList, Data.val, Data.nxt, Data.toList, wfQ,
              Data.empty, wfData_empty]

/-- In the sequential model the non-blocking paths of `wait_and_pop`
coincide with those of `pop`. -/
theorem waitAndPop_eq_pop {T : Type} (s : QState T) : waitAndPop s = pop s := rfl

/-- `push` appends the value at the back of the abstract content and
preserves well-formedness. -/
theorem push_spec {T : Type} (v : T) (s : QState T) (h : wfQ s = true) :
    qToList (push v s) = qToList s ++ [v] ∧ wfQ (push v s) = true := by
  obtain ⟨⟨hv, hn⟩, ⟨tv, tn⟩⟩ := s
  simp only [wfQ, Bool.and_eq_true] at h
  obtain ⟨hwh, hwt⟩ := h
  cases tv with
  | none =>
    have htn : tn = none := wfData_none hwt
    subst htn
    have hcell : wfData (Data.mk (some v) (none : Option (Data T))) = true := by
      simp [wfData, Data.allSome]
    constructor <;>
      simp [push, qToList, Data.val, Data.toList, wfQ, hwh, hcell]
  | some y =>
    have htall := allSome_of_wf_some hwt
    constructor <;>
      simp [push, qToList, Data.val, wfQ, hwh, appendChain_toList,
            wfData_of_allSome (appendChain_allSome v _ htall)]

end Multiq

namespace Multiq

/-- Claim C6: for every well-formed queue state, `pop` removes and
returns the oldest element when at least one is present, and returns the
empty result (leaving the state unchanged) when the queue has no
elements; and concretely, a queue holding 1, 2, 3 (seed 1, then push 2,
push 3) pops 1, 2, 3 in that order, leaving an empty queue. -/
theorem multiq_pop_fifo :
    (∀ (T : Type) (s : QState T), wfQ s = true →
      (qToList s = [] → pop s = (none, s)) ∧
      (∀ x xs, qToList s = x :: xs →
        (pop s).1 = some x ∧ qToList (pop s).2 = xs)) ∧
    ((pop (push 3 (push 2 (newQ (1 : Nat))))).1 = some 1 ∧
     (pop (pop (push 3 (push 2 (newQ (1 : Nat))))).2).1 = some 2 ∧
     (pop (pop (pop (push 3 (push 2 (newQ (1 : Nat))))).2).2).1 = some 3 ∧
     isEmptyQ (pop (pop (pop (push 3 (push 2 (newQ (1 : Nat))))).2).2).2 = true) := by
  constructor
  · intro T s hwf
    have h := pop_spec s hwf
    refine ⟨h.2.2.2, ?_⟩
    intro x xs hx
    refine ⟨?_, ?_⟩
    · rw [h.1, hx]; rfl
    · rw [h.2.1, hx]; rfl
  · refine ⟨rfl, rfl, rfl, rfl⟩

/-- Witness for C6 at the concrete well-formed state `newQ 1`. -/
theorem multiq_pop_fifo_witness :
    (pop (newQ (1 : Nat))).1 = some 1 ∧ qToList (pop (newQ (1 : Nat))).2 = [] :=
  (multiq_pop_fifo.1 Nat (newQ 1) rfl).2 1 [] rfl

/-- Claim C7: for every well-formed (reachable) queue state, the abstract
content `qToList` — head region concatenated with tail region, oldest
first — is respected by each operation: `push` appends exactly the new
value at the back, and `pop` / `wait_and_pop` split off exactly the
returned value at the front (so no element is lost or duplicated), with
well-formedness preserved. -/
theorem multiq_region_invariant :
    ∀ (T : Type) (s : QState T), wfQ s = true →
      (∀ v, wfQ (push v s) = true ∧ qToList (push v s) = qToList s ++ [v]) ∧
      (wfQ (pop s).2 = true ∧
        qToList s = ((pop s).1.toList) ++ qToList (pop s).2) ∧
      (wfQ (waitAndPop s).2 = true ∧
        qToList s = ((waitAndPop s).1.toList) ++ qToList (waitAndPop s).2) := by
  intro T s hwf
  have h := pop_spec s hwf
  have hsplit : qToList s = ((pop s).1.toList) ++ qToList (pop s).2 := by
    rw [h.1, h.2.1]
    cases qToList s <;> rfl
  refine ⟨?_, ⟨h.2.2.1, hsplit⟩, ?_⟩
  · intro v
    have hp := push_spec v s hwf
    exact ⟨hp.2, hp.1⟩
  · rw [waitAndPop_eq_pop]
    exact ⟨h.2.2.1, hsplit⟩

/-- Witness for C7 at the concrete well-formed state `newQ 1`. -/
theorem multiq_region_invariant_witness :
    qToList (push 2 (newQ (1 : Nat))) = qToList (newQ (1 : Nat)) ++ [2] ∧
    qToList (newQ (1 : Nat)) =
      ((pop (newQ (1 : Nat))).1.toList) ++ qToList (pop (newQ (1 : Nat))).2 := by
  have h := multiq_region_invariant Nat (newQ 1) rfl
  exact ⟨(h.1 2).2, h.2.1.2⟩

end Multiq

namespace Stackus

theorem deleteNodes_spin {T : Type} :
    ∀ (fuel a : Nat) (s : StackState T), deleteNodes fuel (some a) s = none
  | 0, _, _ => rfl
  | fuel + 1, a, s => by
    rw [deleteNodes]
    exact deleteNodes_spin fuel a (dealloc s a)

theorem deleteNodes_eq_some {T : Type} {fuel : Nat} {l : Option Nat}
    {s s4 : StackState T} (h : deleteNodes fuel l s = some s4) :
    l = none ∧ s4 = s := by
  cases l with
  | none =>
    refine ⟨rfl, ?_⟩
    cases fuel <;> · simp [deleteNodes] at h; exact h.symm
  | some a => rw [deleteNodes_spin] at h; cases h

theorem chainPendingNodes_fields {T : Type} (s : StackState T) (l : Option Nat) :
    (chainPendingNodes s l).threadsInPop = s.threadsInPop ∧
    (chainPendingNodes s l).incCount = s.incCount ∧
    (chainPendingNodes s l).decCount = s.decCount := by
  cases hl : s.listToDelete <;> simp [chainPendingNodes, hl]

/-- `delete_nodes` on the null list returns at once (the loop guard fails). -/
theorem deleteNodes_none {T : Type} (fuel : Nat) (s : StackState T) :
    deleteNodes fuel (none : Option Nat) s = some s := by
  cases fuel <;> rfl

/-- Counter bookkeeping of `try_reclaim`: on every completed path it
performs exactly one `fetch_sub` and no `fetch_add`, and with no
interference it brings the counter from its entry value to one less. -/
theorem tryReclaim_counts {T : Type} (s : StackState T) (a delta fuel : Nat)
    (s3 : StackState T) (h : tryReclaim s a delta fuel = some s3) :
    s3.incCount = s.incCount ∧ s3.decCount = s.decCount + 1 ∧
    (delta = 0 → s3.threadsInPop = s.threadsInPop - 1) := by
  simp only [tryReclaim] at h
  split at h
  · rename_i ht
    split at h
    · rename_i hobs
      cases hl : s.listToDelete with
      | some b => rw [hl, deleteNodes_spin] at h; cases h
      | none =>
        rw [hl, deleteNodes_none] at h
        injection h with h
        subst h
        exact ⟨by simp [dealloc], by simp [dealloc], fun h0 => by simp [dealloc, h0]⟩
    · rename_i hobs
      injection h with h
      subst h
      refine ⟨by simp [dealloc, chainPendingNodes], by simp [dealloc, chainPendingNodes], ?_⟩
      intro h0
      subst h0
      simp at ht hobs
      omega
  · rename_i ht
    injection h with h
    subst h
    cases hl : s.listToDelete with
    | none =>
      exact ⟨by simp [chainPendingNodes, hl], by simp [chainPendingNodes, hl],
             fun _ => by simp [chainPendingNodes, hl]⟩
    | some b =>
      exact ⟨by simp [chainPendingNodes, hl], by simp [chainPendingNodes, hl],
             fun _ => by simp [chainPendingNodes, hl]⟩

/-- Claim C9: every completed `pop` invocation performs exactly one
`fetch_add` (on entry) and exactly one `fetch_sub` of `threads_in_pop` —
on the empty-stack path and on both reclamation branches — and with no
interfering pop (`delta = 0`) it leaves the counter at its value from
before the call. -/
theorem stackus_pop_counter_balance :
    ∀ (T : Type) (s : StackState T) (delta fuel : Nat) (r : Option T)
      (s2 : StackState T),
      pop s delta fuel = some (r, s2) →
      s2.incCount = s.incCount + 1 ∧ s2.decCount = s.decCount + 1 ∧
      (delta = 0 → s2.threadsInPop = s.threadsInPop) := by
  intro T s delta fuel r s2 h
  cases fuel with
  | zero => simp [pop, popLoop] at h
  | succ n =>
    simp only [pop] at h
    cases hh : s.head with
    | none =>
      simp only [popLoop, hh, Option.isSome_none, Bool.false_eq_true,
                 if_false] at h
      simp only [Option.some.injEq, Prod.mk.injEq] at h
      obtain ⟨rfl, rfl⟩ := h
      refine ⟨rfl, rfl, fun h0 => by simp⟩
    | some a =>
      cases hf : s.heap.find? (fun p => p.1 == a) with
      | none => simp [popLoop, hh, readHeap, hf] at h
      | some pr =>
        simp only [popLoop, hh, Option.isSome_some, if_true, if_pos, readHeap,
                   hf, Option.map_some'] at h
        split at h
        · exact absurd h (by simp)
        · rename_i s3 htr
          simp only [Option.some.injEq, Prod.mk.injEq] at h
          obtain ⟨rfl, rfl⟩ := h
          have hc := tryReclaim_counts _ a delta (n + 1) s3 htr
          refine ⟨?_, ?_, ?_⟩
          · rw [hc.1]
          · rw [hc.2.1]
          · intro h0
            rw [hc.2.2 h0]
            simp

/-- Witness for C9: a completed pop on the one-element stack `newStack 1`
with no interference restores the counter. -/
theorem stackus_pop_counter_balance_witness :
    (((pop (newStack (1 : Nat)) 0 1).getD (none, emptyState Nat)).2).incCount
        = (newStack (1 : Nat)).incCount + 1 ∧
    (((pop (newStack (1 : Nat)) 0 1).getD (none, emptyState Nat)).2).threadsInPop
        = (newStack (1 : Nat)).threadsInPop := by
  have h := stackus_pop_counter_balance Nat (newStack 1) 0 1
    (((pop (newStack (1 : Nat)) 0 1).getD (none, emptyState Nat)).1)
    (((pop (newStack (1 : Nat)) 0 1).getD (none, emptyState Nat)).2) (by decide)
  exact ⟨h.1, h.2.2 rfl⟩

/-- Sequential `pop` with ample fuel (every terminating sequential call
finishes within fuel 2); convenience wrapper for concrete runs. -/
def popD {T : Type} (s : StackState T) : Option T × StackState T :=
  (pop s 0 2).getD (none, s)

/-- The stack holding 1, 2, 3 (seed 1, then push 2, push 3). -/
def lifoStack : StackState Nat := push 3 (push 2 (newStack 1))

/-- Claim C8: sequentially, `pop` unlinks and returns the value of the
current head node (the new head being that node's successor, the node
being freed), or returns the empty result when the head is null; hence
pushing 1, 2, 3 and popping three times yields 3, 2, 1 and leaves the
stack empty. -/
theorem stackus_pop_lifo :
    (∀ (T : Type) (s : StackState T) (fuel : Nat), 0 < fuel → s.head = none →
       pop s 0 fuel = some (none,
         { s with incCount := s.incCount + 1, decCount := s.decCount + 1 })) ∧
    (∀ (T : Type) (s : StackState T) (fuel a : Nat) (node : Node T),
       0 < fuel → s.threadsInPop = 0 → s.listToDelete = none →
       s.head = some a → readHeap s a = some node →
       pop s 0 fuel = some (some node.value,
         dealloc { s with head := node.next,
                          incCount := s.incCount + 1,
                          decCount := s.decCount + 1 } a)) ∧
    ((popD lifoStack).1 = some 3 ∧
     (popD (popD lifoStack).2).1 = some 2 ∧
     (popD (popD (popD lifoStack).2).2).1 = some 1 ∧
     isEmptyS (popD (popD (popD lifoStack).2).2).2 = true) := by
  refine ⟨?_, ?_, by decide, by decide, by decide, by decide⟩
  · intro T s fuel hfuel hh
    cases fuel with
    | zero => exact absurd hfuel (by omega)
    | succ n =>
      simp only [pop, popLoop, hh, Option.isSome_none, Bool.false_eq_true,
                 if_false, Option.some.injEq, Prod.mk.injEq]
      refine ⟨trivial, ?_⟩
      simp [StackState.mk.injEq]
  · intro T s fuel a node hfuel ht hl hh hr
    cases fuel with
    | zero => exact absurd hfuel (by omega)
    | succ n =>
      cases hf : s.heap.find? (fun p => p.1 == a) with
      | none => rw [readHeap, hf] at hr; cases hr
      | some pr =>
        rw [readHeap, hf, Option.map_some'] at hr
        injection hr with hr
        subst hr
        simp only [pop, popLoop, hh, Option.isSome_some, if_true, if_pos,
                   readHeap, hf, Option.map_some']
        simp [tryReclaim, ht, hl, deleteNodes_none, dealloc,
              StackState.mk.injEq]

/-- Witness for C8: popping the freshly constructed one-element stack
returns its seed and frees the node. -/
theorem stackus_pop_lifo_witness :
    pop (newStack (1 : Nat)) 0 1 = some (some 1,
      dealloc ({ newStack (1 : Nat) with
                 head := none,
                 incCount := (newStack (1 : Nat)).incCount + 1,
                 decCount := (newStack (1 : Nat)).decCount + 1 }) 0) := by
  have h := stackus_pop_lifo.2.1 Nat (newStack 1) 1 0
    { value := 1, next := none } (by decide) rfl rfl rfl rfl
  exact h

/-- Claim C10: a newly constructed stack is never empty — `new` allocates
one node holding the seed value, `is_empty` returns false right after
construction, and the first sequential pop returns the seed. -/
theorem stackus_new_nonempty :
    ∀ (T : Type) (v : T),
      isEmptyS (newStack v) = false ∧
      readHeap (newStack v) 0 = some { value := v, next := none } ∧
      (pop (newStack v) 0 1).map (fun p => p.1) = some (some v) := by
  intro T v
  exact ⟨rfl, rfl, rfl⟩

/-- Claim C2 (refuted by the code): `delete_nodes` never advances its
loop variable along the `next` links — every iteration deallocates the
very same address and recurses on the unchanged pointer — so on any
non-null list the loop never terminates, whatever fuel it is given. -/
theorem deleteNodes_never_terminates :
    (∀ (T : Type) (fuel a : Nat) (s : StackState T),
       deleteNodes fuel (some a) s = none) ∧
    (∀ (T : Type) (fuel a : Nat) (s : StackState T),
       deleteNodes (fuel + 1) (some a) s = deleteNodes fuel (some a) (dealloc s a)) :=
  ⟨fun _ => deleteNodes_spin, fun _ _ _ _ => rfl⟩

/-- A stack whose pending-deletion list is the chain 10 → 11 while node
20 (with null successor) is about to be handed to `chain_pending_nodes`
by a contended pop. -/
def exC3 : StackState Nat :=
  { heap := [(10, { value := 1, next := some 11 }),
             (11, { value := 2, next := none }),
             (20, { value := 3, next := none })],
    head := none, threadsInPop := 2, listToDelete := some 10,
    nextAlloc := 21, freed := [], incCount := 1, decCount := 0 }

/-- Claim C3 (refuted by the code): with a non-empty pending-deletion
list the CAS fails and the source writes the new list into the `next`
field of the by-value copy of the first pending node made by
`ptr::read`; the heap is untouched, so the call leaves the state
unchanged and node 20 is neither reachable from `list_to_delete` nor
freed — it is leaked, contradicting the claim and the source's own
comment "loop until next is null and insert taken list". -/
theorem chainPendingNodes_loses_nodes :
    chainPendingNodes exC3 (some 20) = exC3 ∧
    chainList 5 (chainPendingNodes exC3 (some 20))
      (chainPendingNodes exC3 (some 20)).listToDelete = [10, 11] ∧
    ¬ 20 ∈ chainList 5 (chainPendingNodes exC3 (some 20))
      (chainPendingNodes exC3 (some 20)).listToDelete ∧
    ¬ 20 ∈ (chainPendingNodes exC3 (some 20)).freed := by
  refine ⟨rfl, rfl, by decide, by decide⟩

/-- A stack whose live list holds two nodes: head 1 → 0. -/
def exC4a : StackState Nat :=
  { heap := [(0, { value := 1, next := none }),
             (1, { value := 2, next := some 0 })],
    head := some 1, threadsInPop := 0, listToDelete := none,
    nextAlloc := 2, freed := [], incCount := 0, decCount := 0 }

/-- A stack with one live node (address 0) and one node (address 5) still
parked on the pending-deletion list. -/
def exC4b : StackState Nat :=
  { heap := [(0, { value := 1, next := none }),
             (5, { value := 9, next := none })],
    head := some 0, threadsInPop := 0, listToDelete := some 5,
    nextAlloc := 6, freed := [], incCount := 0, decCount := 0 }

/-- Claim C4 (refuted by the code): `Drop` computes each `next_head` from
`self.head.load()` — the original head, never updated — instead of the
loop cursor, so on a two-node live list the second iteration dereferences
the already-freed head node (the walk never progresses past it); and
`Drop` never touches `list_to_delete`, so a node parked on the
pending-deletion list survives teardown unfreed. -/
theorem dropStack_faults_and_leaks :
    dropStack 5 exC4a = some none ∧
    dropStack 5 exC4b =
      some (some ({ exC4b with
                    heap := [(5, { value := 9, next := none })],
                    freed := [0] })) ∧
    ¬ 5 ∈ (({ exC4b with
              heap := [(5, { value := 9, next := none })],
              freed := [0] }) : StackState Nat).freed := by
  refine ⟨rfl, rfl, by decide⟩

/-- A pop that read `old_head = 0` while node 0 was the head, after which
another thread pushed node 1 (whose successor is node 0): the head is now
1 and no longer matches the stale `old_head`. -/
def exC5 : StackState Nat :=
  { heap := [(0, { value := 1, next := none }),
             (1, { value := 2, next := some 0 })],
    head := some 1, threadsInPop := 1, listToDelete := none,
    nextAlloc := 2, freed := [], incCount := 1, decCount := 0 }

/-- Claim C5 (refuted by the code): after a CAS failure the retry uses
the SAME `old_head` read before the loop — `old_head` is never refreshed
from `head` — so once the head has moved away from the stale value the
loop spins forever: each iteration is the identity and no amount of fuel
makes it terminate. -/
theorem popLoop_stale_old_head_spins :
    (∀ fuel : Nat, popLoop fuel exC5 (some 0) = none) ∧
    (∀ fuel : Nat, popLoop (fuel + 1) exC5 (some 0) = popLoop fuel exC5 (some 0)) := by
  have hstep : ∀ fuel : Nat,
      popLoop (fuel + 1) exC5 (some 0) = popLoop fuel exC5 (some 0) := by
    intro fuel
    rfl
  refine ⟨?_, hstep⟩
  intro fuel
  induction fuel with
  | zero => rfl
  | succ n ih => rw [hstep n]; exact ih

end Stackus
